import Mathlib

/-!
Verification of the bash-command validation hook (`hooks/validate-bash/run.py`).

The Python code is shallowly embedded: strings are Lean `String`s (lists of
characters), the bashlex syntax tree is an inductive type `BNode` covering the
node kinds the visitor dispatches on, the stateful `BashASTVisitor` becomes an
explicit state-passing fold over the tree, and Python exceptions raised inside
the `try` block of `check_command` become `Except String` values that are
routed to the same failure handler as parse errors.
-/

namespace ValidateBash

/-- Python regex `\s` restricted to the ASCII whitespace characters
(space, tab, newline, carriage return, form feed, vertical tab). -/
def isPySpace (c : Char) : Bool :=
  c == ' ' || c == '\t' || c == '\n' || c == '\r' || c == '\x0c' || c == '\x0b'

/-- Python substring test `pat in l` on character lists. -/
def containsSub (pat : List Char) : List Char → Bool
  | [] => pat.isEmpty
  | c :: t => pat.isPrefixOf (c :: t) || containsSub pat t

/-- Python substring test `pat in s` on strings. -/
def containsStr (s pat : String) : Bool := containsSub pat.data s.data

/-- Helper for the regex `(^|\s)/`: some character satisfying `\s` is
immediately followed by `/` somewhere in the list. -/
def absAux : List Char → Bool
  | c :: d :: t => (isPySpace c && d == '/') || absAux (d :: t)
  | _ => false

/-- The regex search `re.search(r'(^|\s)/', text)` from
`validate_text_for_dangerous_patterns`: the text starts with `/`, or `/`
appears immediately after a whitespace character. -/
def hasAbsPath (l : List Char) : Bool :=
  (match l with
   | c :: _ => c == '/'
   | [] => false) || absAux l

/-- `validate_text_for_dangerous_patterns(text, context_name)` from run.py.
The Python pair `(is_safe, violation_message)` is represented by
`Option String`: `none` for `(True, None)`, `some msg` for `(False, msg)`. -/
def validate_text_for_dangerous_patterns (text context_name : String) : Option String :=
  if hasAbsPath text.data then some (context_name ++ " uses absolute path")
  else if containsStr text ".." then some (context_name ++ " accesses parent directory")
  else if containsStr text "~" then some (context_name ++ " uses tilde expansion")
  else if containsStr text ".git" then some (context_name ++ " accesses .git files")
  else none

/-- Split a character list at the first `:` (Python `pattern.split(':', 1)`);
`none` when there is no colon. -/
def splitColonAux : List Char → Option (List Char × List Char)
  | [] => none
  | c :: t =>
    if c == ':' then some ([], t)
    else (splitColonAux t).map (fun p => (c :: p.1, p.2))

/-- `pattern.split(':', 1) if ':' in pattern else (pattern, '')` from
`matches_pattern`. -/
def splitFirstColon (s : String) : String × String :=
  match splitColonAux s.data with
  | some p => (⟨p.1⟩, ⟨p.2⟩)
  | none => (s, "")

/-- Accumulator pass for Python `str.split()` with no separator:
whitespace runs separate words, leading/trailing whitespace is dropped. -/
def splitWsAux (cur : List Char) : List Char → List (List Char)
  | [] => if cur.isEmpty then [] else [cur.reverse]
  | c :: t =>
    if isPySpace c then
      if cur.isEmpty then splitWsAux [] t
      else cur.reverse :: splitWsAux [] t
    else splitWsAux (c :: cur) t

/-- Python `s.split()` (no separator). -/
def splitWs (s : String) : List String :=
  (splitWsAux [] s.data).map (fun w => ⟨w⟩)

/-- Python `a.startswith(b)`. -/
def startsWith (a b : String) : Bool := b.data.isPrefixOf a.data

/-- Python `' '.join(l)`. -/
def joinSpace (l : List String) : String := String.intercalate " " l

/-- `matches_pattern(command_name, command_args, pattern)` from run.py.
A pattern whose command part has no whitespace-separated words makes the
Python code evaluate `pattern_parts[0]` on an empty list; that `IndexError`
is modelled as `Except.error "list index out of range"` (it is caught by the
`try` block of `check_command`). -/
def matches_pattern (command_name command_args pattern : String) : Except String Bool :=
  let p := splitFirstColon pattern
  let pattern_cmd_part := p.1
  let pattern_args_wildcard := p.2
  match splitWs pattern_cmd_part with
  | [] => .error "list index out of range"
  | pattern_cmd :: restParts =>
    let pattern_required_args := joinSpace restParts
    if command_name = pattern_cmd then
      if pattern_required_args = "" then
        if pattern_args_wildcard = "" || pattern_args_wildcard = "*" then .ok true
        else .ok (decide (command_args = pattern_args_wildcard))
      else
        if startsWith command_args pattern_required_args then
          if pattern_args_wildcard = "*" then .ok true
          else .ok (decide (command_args = pattern_required_args))
        else .ok false
    else .ok false

/-- `CommandContext` from run.py: a command name together with its word
parts; `args` and `full_command` are the joined forms computed in
`CommandContext.__init__` (the AST node reference is irrelevant to the
decision and is not modelled). -/
structure CommandContext where
  name : String
  parts : List String
  args : String
  full_command : String
deriving DecidableEq

/-- `CommandContext(name, parts, node)`: `args = ' '.join(parts[1:])`,
`full_command = ' '.join(parts)`. -/
def mkCommandContext (name : String) (parts : List String) : CommandContext :=
  { name := name
    parts := parts
    args := joinSpace (parts.drop 1)
    full_command := joinSpace parts }

/-- The bashlex AST node shapes consumed by `BashASTVisitor`: each
constructor carries exactly the attributes the visitor reads for that node
kind (`parts`, `list`, `command`, `op`, `output`, `word`). Kinds the visitor
has no method for (such as `pipe`) fall through to `generic_visit`. -/
inductive BNode where
  | command (parts : List BNode)
  | pipeline (parts : List BNode)
  | list (parts : List BNode)
  | word (w : String) (parts : List BNode)
  | compound (lst : List BNode)
  | operator (op : String)
  | pipe (p : String)
  | parameter (value : String)
  | commandsubstitution (cmd : BNode)
  | processsubstitution (cmd : BNode)
  | redirect (output : Option BNode)

/-- The mutable fields of `BashASTVisitor`, threaded explicitly. -/
structure VState where
  commands : List CommandContext
  violations : List String
  has_background : Bool
  has_var_expansion : Bool
  has_process_sub : Bool
  in_command_substitution : Bool
  in_redirect : Bool
deriving DecidableEq

/-- `BashASTVisitor.__init__`. -/
def initState : VState :=
  { commands := []
    violations := []
    has_background := false
    has_var_expansion := false
    has_process_sub := false
    in_command_substitution := false
    in_redirect := false }

/-- `hasattr(node, 'word')` / `node.word`: only word nodes carry a `word`
attribute in the modelled node kinds. -/
def wordOf : BNode → Option String
  | .word w _ => some w
  | _ => none

mutual

/-- `BashASTVisitor.visit` with the per-kind `visit_*` methods and
`generic_visit` inlined into one match (the Python dispatches on
`node.kind`; each branch below ends with the traversal `generic_visit`
performs for that node's attributes). -/
def visit (s : VState) (n : BNode) : VState :=
  match n with
  | .command parts =>
    -- visit_command: extract name and word parts, then generic_visit(parts)
    let s1 :=
      match parts with
      | [] => s
      | first :: _ =>
        match wordOf first with
        | some cmd_name =>
          { s with commands :=
              s.commands ++ [mkCommandContext cmd_name (parts.filterMap wordOf)] }
        | none => s
    visitSeq s1 parts
  | .pipeline parts => visitSeq s parts
  | .list parts => visitSeq s parts
  | .word _ parts => visitSeq s parts
  | .compound lst => visitSeq s lst
  | .operator op =>
    -- visit_operator: only `&` sets the background flag
    if op = "&" then { s with has_background := true } else s
  | .pipe _ => s
  | .parameter _ => { s with has_var_expansion := true }
  | .commandsubstitution c =>
    -- visit_commandsubstitution: save/restore the context flag, visit node.command
    let old := s.in_command_substitution
    let s1 := { s with in_command_substitution := true }
    let s2 := visit s1 c
    { s2 with in_command_substitution := old }
  | .processsubstitution c =>
    -- visit_processsubstitution: set the flag, then generic_visit visits node.command
    let s1 := { s with has_process_sub := true }
    visit s1 c
  | .redirect output =>
    -- visit_redirect: validate the target word; the redirect node has no
    -- parts/list/command attribute, so generic_visit traverses nothing
    let old := s.in_redirect
    let s1 := { s with in_redirect := true }
    let s2 :=
      match output with
      | some o =>
        match wordOf o with
        | some target =>
          match validate_text_for_dangerous_patterns target "redirect target" with
          | some viol => { s1 with violations := s1.violations ++ [viol] }
          | none => s1
        | none => s1
      | none => s1
    { s2 with in_redirect := old }

/-- Sequential visiting of a node list (the `for part in ...: self.visit(part)`
loops of `generic_visit` and of `check_command`). -/
def visitSeq (s : VState) (ns : List BNode) : VState :=
  match ns with
  | [] => s
  | n :: t => visitSeq (visit s n) t

end

/-- The `DANGEROUS_EXEC_FLAGS` set from `check_command` (only membership is
ever used, so a list models the Python set). -/
def DANGEROUS_EXEC_FLAGS : List String :=
  ["--command", "-exec", "--exec", "--execute", "--eval"]

/-- Python `f"'{s}'"`. -/
def squote (s : String) : String := "\x27" ++ s ++ "\x27"

/-- The `for pattern in APPROVED_PATTERNS` loop of `check_command`:
first match sets `is_approved` and breaks; an `IndexError` escaping
`matches_pattern` aborts the whole loop. -/
def isApproved (approved : List String) (name args : String) : Except String Bool :=
  match approved with
  | [] => .ok false
  | p :: rest =>
    match matches_pattern name args p with
    | .error e => .error e
    | .ok true => .ok true
    | .ok false => isApproved rest name args

/-- The violations produced for one `cmd_ctx` by the per-command section of
`check_command` (lines 397-426): a failing text-safety check short-circuits
with `continue`; otherwise the first dangerous flag among the argument words
is recorded, and then — regardless of the flag outcome — a command matching
no approved pattern also records "not in approved list". -/
def commandCheckViolations (approved : List String) (c : CommandContext) :
    Except String (List String) :=
  match validate_text_for_dangerous_patterns c.full_command (squote c.name) with
  | some viol => .ok [viol]
  | none =>
    let flagViols :=
      match (c.parts.drop 1).find? (fun a => DANGEROUS_EXEC_FLAGS.contains a) with
      | some arg =>
        [squote c.name ++ " uses dangerous flag " ++ squote arg ++
          " (enables arbitrary code execution)"]
      | none => []
    match isApproved approved c.name c.args with
    | .error e => .error e
    | .ok true => .ok flagViols
    | .ok false => .ok (flagViols ++ [squote c.name ++ " not in approved list"])

/-- The `for cmd_ctx in visitor.commands` loop: each command's violations are
appended to the accumulated `visitor.violations` list. -/
def accumViolations (approved : List String) (cs : List CommandContext)
    (acc : List String) : Except String (List String) :=
  match cs with
  | [] => .ok acc
  | c :: t =>
    match commandCheckViolations approved c with
    | .error e => .error e
    | .ok vs => accumViolations approved t (acc ++ vs)

/-- Reason for the background-task confirmation. -/
def BG_MSG : String :=
  "contains backgrounded task (&). Background processes require permission."

/-- Reason for the variable-expansion confirmation. -/
def VAR_MSG : String :=
  "contains variable expansion ($VAR or ${VAR}). Variables could reference dangerous paths."

/-- Reason for the process-substitution confirmation. -/
def PS_MSG : String :=
  "contains process substitution (<() or >()). Process substitution spawns parallel processes."

/-- Python `[f"{i+1}. {v}." for i, v in enumerate(violations)]`, starting the
numbering at `i`. -/
def numberedFrom (i : Nat) : List String → List String
  | [] => []
  | v :: t => (toString i ++ ". " ++ v ++ ".") :: numberedFrom (i + 1) t

/-- Lines 429-437 of `check_command`: no violations → allow; one violation →
ask with its text; several → ask with a numbered concatenation. -/
def formatViolations (vs : List String) : String × String :=
  match vs with
  | [] => ("allow", "")
  | [v] => ("ask", v)
  | _ => ("ask", "multiple issues: " ++ joinSpace (numberedFrom 1 vs))

/-- The body of the `try` block of `check_command` after `bashlex.parse`
succeeded: visit every top-level node, test the three hazard flags in order,
then collect and format the per-command violations. An `IndexError` from
pattern matching propagates as `Except.error`. -/
def checkParsedE (approved : List String) (parts : List BNode) :
    Except String (String × String) :=
  let v := visitSeq initState parts
  if v.has_background then .ok ("ask", BG_MSG)
  else if v.has_var_expansion then .ok ("ask", VAR_MSG)
  else if v.has_process_sub then .ok ("ask", PS_MSG)
  else
    match accumViolations approved v.commands v.violations with
    | .error e => .error e
    | .ok vs => .ok (formatViolations vs)

/-- Characters accepted by the `["']` classes of the heredoc regex. -/
def isQuoteChar (c : Char) : Bool := c == '"' || c == '\x27'

/-- The `[A-Za-z_]` class. -/
def isIdentStart (c : Char) : Bool :=
  (decide ('A' ≤ c) && decide (c ≤ 'Z')) ||
  (decide ('a' ≤ c) && decide (c ≤ 'z')) || c == '_'

/-- The `[A-Za-z0-9_]` class. -/
def isIdentChar (c : Char) : Bool :=
  isIdentStart c || (decide ('0' ≤ c) && decide (c ≤ '9'))

/-- The optional `-` after `<<` in the heredoc regex. -/
def afterDash (l : List Char) : List Char :=
  match l with
  | '-' :: t => t
  | _ => l

/-- Match of `<<-?\s*["'][A-Za-z_][A-Za-z0-9_]*["']` anchored at the head of
the list. Every starred class is disjoint from the character that must follow
it, so the greedy regex is equivalent to this deterministic maximal munch. -/
def heredocAt (l : List Char) : Bool :=
  match l with
  | '<' :: '<' :: rest =>
    match (afterDash rest).dropWhile isPySpace with
    | q :: c :: t =>
      isQuoteChar q && isIdentStart c &&
        (match t.dropWhile isIdentChar with
         | q2 :: _ => isQuoteChar q2
         | [] => false)
    | _ => false
  | _ => false

/-- `re.search(r'<<-?\s*["\'][A-Za-z_][A-Za-z0-9_]*["\']', command)`:
the anchored match succeeds at some position. -/
def heredocQuotedSearch : List Char → Bool
  | [] => false
  | c :: t => heredocAt (c :: t) || heredocQuotedSearch t

/-- The deny reason for an unparseable heredoc with quoted delimiter. -/
def HEREDOC_DENY_MSG : String :=
  "heredoc with quoted delimiter detected (e.g., <<\x27EOF\x27 or <<\"EOF\"). " ++
  "The bash parser cannot handle quoted heredoc delimiters. " ++
  "Please rewrite the command using an unquoted heredoc delimiter (e.g., <<EOF) instead. " ++
  "Note: Unquoted heredocs still prevent variable expansion when the content is properly quoted."

/-- The `except Exception` handler of `check_command`: deny only for the
heredoc-with-quoted-delimiter signature (error text mentions both
"here-document" and "wanted", and the command text matches the quoted
delimiter regex); otherwise ask with the raw error text. -/
def handleParseFailure (command error_msg : String) : String × String :=
  if containsStr error_msg "here-document" && containsStr error_msg "wanted" &&
      heredocQuotedSearch command.data then
    ("deny", HEREDOC_DENY_MSG)
  else
    ("ask", "failed to parse compound command: " ++ error_msg)

/-- `check_command(command)` from run.py, with the external `bashlex.parse`
outcome supplied as `parsed` (`Except.error` for a parser exception). Both a
parse failure and an exception raised inside the `try` body reach the same
`except` handler. -/
def check_command (approved : List String) (command : String)
    (parsed : Except String (List BNode)) : String × String :=
  match parsed with
  | .error e => handleParseFailure command e
  | .ok parts =>
    match checkParsedE approved parts with
    | .ok r => r
    | .error e => handleParseFailure command e

/-- `validate_command(command)` from run.py, restricted to the decision it
sends: a command containing a null byte is answered "ask" before any parsing;
otherwise the decision is `check_command`'s. -/
def validate_command (approved : List String) (command : String)
    (parsed : Except String (List BNode)) : String × String :=
  if containsStr command "\x00" then ("ask", "contains null byte")
  else check_command approved command parsed

/-! ### Composition of the visitor state -/

/-- Observable combination of two visitor states: lists are appended, hazard
flags are or-ed, and the save/restore context flags keep the left state's
values. -/
def mergeS (s t : VState) : VState :=
  { commands := s.commands ++ t.commands
    violations := s.violations ++ t.violations
    has_background := s.has_background || t.has_background
    has_var_expansion := s.has_var_expansion || t.has_var_expansion
    has_process_sub := s.has_process_sub || t.has_process_sub
    in_command_substitution := s.in_command_substitution
    in_redirect := s.in_redirect }

theorem mergeS_initState_right (s : VState) : mergeS s initState = s := by
  simp [mergeS, initState]

theorem mergeS_initState_left (t : VState) :
    mergeS initState t =
      { t with in_command_substitution := false, in_redirect := false } := by
  simp [mergeS, initState]

theorem mergeS_assoc (s t u : VState) :
    mergeS (mergeS s t) u = mergeS s (mergeS t u) := by
  simp [mergeS, Bool.or_assoc]

mutual

/-- The visitor is a fold: visiting from an arbitrary incoming state appends
exactly what visiting from the fresh state produces, and the two context
flags are restored. -/
theorem visit_mergeS (s : VState) (n : BNode) :
    visit s n = mergeS s (visit initState n) := by
  match n with
  | .command parts =>
    match parts with
    | [] =>
      exact visitSeq_mergeS s []
    | first :: rest =>
      rw [visit.eq_def, visit.eq_def]
      rcases hw : wordOf first with _ | cmd_name
      · simp only [hw]
        exact visitSeq_mergeS s (first :: rest)
      · simp only [hw]
        have hL := visitSeq_mergeS
          { s with commands :=
              s.commands ++ [mkCommandContext cmd_name (List.filterMap wordOf (first :: rest))] }
          (first :: rest)
        have hR := visitSeq_mergeS
          { initState with commands :=
              initState.commands ++
                [mkCommandContext cmd_name (List.filterMap wordOf (first :: rest))] }
          (first :: rest)
        rw [hL, hR]
        simp [mergeS, initState]
  | .pipeline parts =>
    exact visitSeq_mergeS s parts
  | .list parts =>
    exact visitSeq_mergeS s parts
  | .word w parts =>
    exact visitSeq_mergeS s parts
  | .compound lst =>
    exact visitSeq_mergeS s lst
  | .operator op =>
    rw [visit.eq_def, visit.eq_def]
    by_cases h : op = "&" <;> simp [h, mergeS, initState]
  | .pipe p =>
    rw [visit.eq_def, visit.eq_def]; simp [mergeS, initState]
  | .parameter v =>
    rw [visit.eq_def, visit.eq_def]; simp [mergeS, initState]
  | .commandsubstitution c =>
    rw [visit.eq_def, visit.eq_def]
    have hL := visit_mergeS { s with in_command_substitution := true } c
    have hR := visit_mergeS { initState with in_command_substitution := true } c
    simp only []
    rw [hL, hR]
    simp [mergeS, initState]
  | .processsubstitution c =>
    rw [visit.eq_def, visit.eq_def]
    have hL := visit_mergeS { s with has_process_sub := true } c
    have hR := visit_mergeS { initState with has_process_sub := true } c
    simp only []
    rw [hL, hR]
    simp [mergeS, initState]
  | .redirect output =>
    rw [visit.eq_def, visit.eq_def]
    rcases output with _ | o
    · simp [mergeS, initState]
    · rcases hw : wordOf o with _ | target
      · simp only [hw]
        simp [mergeS, initState]
      · simp only [hw]
        rcases hv : validate_text_for_dangerous_patterns target "redirect target" with _ | viol
        · simp only [hv]
          simp [mergeS, initState]
        · simp only [hv]
          simp [mergeS, initState]

theorem visitSeq_mergeS (s : VState) (ns : List BNode) :
    visitSeq s ns = mergeS s (visitSeq initState ns) := by
  match ns with
  | [] =>
    rw [visitSeq, visitSeq, mergeS_initState_right]
  | n :: t =>
    rw [visitSeq, visitSeq]
    rw [visitSeq_mergeS (visit s n) t, visitSeq_mergeS (visit initState n) t]
    rw [visit_mergeS s n, mergeS_assoc]

end

/-! ### Error propagation: the only exception raised inside the `try` body -/

theorem matches_pattern_error (name args p e : String)
    (h : matches_pattern name args p = .error e) : e = "list index out of range" := by
  unfold matches_pattern at h
  simp only [] at h
  split at h
  · injection h with h1
    exact h1.symm
  · repeat' split at h
    all_goals simp_all

theorem isApproved_error (approved : List String) (name args e : String)
    (h : isApproved approved name args = .error e) : e = "list index out of range" := by
  induction approved with
  | nil => simp [isApproved] at h
  | cons p rest ih =>
    unfold isApproved at h
    rcases hm : matches_pattern name args p with e0 | b
    · rw [hm] at h
      cases h
      exact matches_pattern_error name args p e hm
    · rw [hm] at h
      cases b
      · exact ih h
      · cases h

theorem commandCheckViolations_error (approved : List String) (c : CommandContext)
    (e : String) (h : commandCheckViolations approved c = .error e) :
    e = "list index out of range" := by
  unfold commandCheckViolations at h
  split at h
  · cases h
  · rcases ha : isApproved approved c.name c.args with e0 | b
    · rw [ha] at h
      cases h
      exact isApproved_error approved c.name c.args e ha
    · rw [ha] at h
      cases b <;> cases h

theorem accumViolations_error (approved : List String) (cs : List CommandContext)
    (acc : List String) (e : String)
    (h : accumViolations approved cs acc = .error e) : e = "list index out of range" := by
  induction cs generalizing acc with
  | nil => simp [accumViolations] at h
  | cons c t ih =>
    unfold accumViolations at h
    rcases hc : commandCheckViolations approved c with e0 | vs
    · rw [hc] at h
      cases h
      exact commandCheckViolations_error approved c e hc
    · rw [hc] at h
      exact ih _ h

theorem checkParsedE_error (approved : List String) (parts : List BNode) (e : String)
    (h : checkParsedE approved parts = .error e) : e = "list index out of range" := by
  unfold checkParsedE at h
  simp only [] at h
  split at h
  · cases h
  · split at h
    · cases h
    · split at h
      · cases h
      · rcases ha : accumViolations approved (visitSeq initState parts).commands
            (visitSeq initState parts).violations with e0 | vs
        · rw [ha] at h
          cases h
          exact accumViolations_error _ _ _ _ ha
        · rw [ha] at h
          cases h

theorem checkParsedE_ok_shape (approved : List String) (parts : List BNode)
    (r : String × String) (h : checkParsedE approved parts = .ok r) :
    r = ("allow", "") ∨ r.1 = "ask" := by
  unfold checkParsedE at h
  simp only [] at h
  split at h
  · cases h; right; rfl
  · split at h
    · cases h; right; rfl
    · split at h
      · cases h; right; rfl
      · rcases ha : accumViolations approved (visitSeq initState parts).commands
            (visitSeq initState parts).violations with e0 | vs
        · rw [ha] at h; cases h
        · rw [ha] at h
          cases h
          match vs with
          | [] => left; rfl
          | [v] => right; rfl
          | v :: w :: t => right; rfl

/-- The internal `IndexError` text never carries the heredoc signature, so an
exception from pattern matching is always answered "ask". -/
theorem handleParseFailure_indexError (command : String) :
    handleParseFailure command "list index out of range" =
      ("ask", "failed to parse compound command: list index out of range") := by
  unfold handleParseFailure
  have h : containsStr "list index out of range" "here-document" = false := by decide
  rw [h]
  simp

/-! ### Accumulator lemmas for the violation list -/

theorem accumViolations_acc (approved : List String) (cs : List CommandContext)
    (acc : List String) :
    accumViolations approved cs acc =
      match accumViolations approved cs [] with
      | .error e => .error e
      | .ok vs => .ok (acc ++ vs) := by
  induction cs generalizing acc with
  | nil => simp [accumViolations]
  | cons c t ih =>
    rw [accumViolations, accumViolations]
    rcases hc : commandCheckViolations approved c with e0 | vs
    · simp [hc]
    · simp only [hc]
      rw [ih (acc ++ vs), ih ([] ++ vs)]
      rcases ht : accumViolations approved t [] with e1 | ws
      · simp [ht]
      · simp [ht, List.append_assoc]

theorem accumViolations_append (approved : List String)
    (l1 l2 : List CommandContext) (acc : List String) :
    accumViolations approved (l1 ++ l2) acc =
      match accumViolations approved l1 acc with
      | .error e => .error e
      | .ok vs => accumViolations approved l2 vs := by
  induction l1 generalizing acc with
  | nil => simp [accumViolations]
  | cons c t ih =>
    rw [List.cons_append, accumViolations, accumViolations]
    rcases hc : commandCheckViolations approved c with e0 | vs
    · simp [hc]
    · simp only [hc]
      exact ih (acc ++ vs)

/-! ### Decision characterizations -/

theorem check_command_ok_eq (approved : List String) (command : String)
    (parts : List BNode) :
    check_command approved command (.ok parts) =
      match checkParsedE approved parts with
      | .ok r => r
      | .error e => handleParseFailure command e := rfl

theorem check_command_ok_not_deny (approved : List String) (command : String)
    (parts : List BNode) : (check_command approved command (.ok parts)).1 ≠ "deny" := by
  rw [check_command_ok_eq]
  rcases h : checkParsedE approved parts with e | r
  · simp only []
    rw [checkParsedE_error approved parts e h, handleParseFailure_indexError]
    decide
  · simp only []
    rcases checkParsedE_ok_shape approved parts r h with h1 | h1
    · rw [h1]; decide
    · rw [h1]; decide

theorem checkParsedE_allow_iff (approved : List String) (parts : List BNode) :
    checkParsedE approved parts = .ok ("allow", "") ↔
      ((visitSeq initState parts).has_background = false ∧
       (visitSeq initState parts).has_var_expansion = false ∧
       (visitSeq initState parts).has_process_sub = false ∧
       accumViolations approved (visitSeq initState parts).commands
         (visitSeq initState parts).violations = .ok []) := by
  unfold checkParsedE
  simp only []
  rcases hb : (visitSeq initState parts).has_background with _ | _
  · rcases hv : (visitSeq initState parts).has_var_expansion with _ | _
    · rcases hp : (visitSeq initState parts).has_process_sub with _ | _
      · simp only [if_neg (by decide : ¬(false = true))]
        rcases ha : accumViolations approved (visitSeq initState parts).commands
            (visitSeq initState parts).violations with e | vs
        · simp
        · match vs with
          | [] => simp [formatViolations]
          | [v] => simp [formatViolations, Prod.ext_iff]
          | v :: w :: t => simp [formatViolations, Prod.ext_iff]
      · simp [PS_MSG, Prod.ext_iff]
    · simp [VAR_MSG, Prod.ext_iff]
  · simp [BG_MSG, Prod.ext_iff]

theorem check_command_ok_allow_iff (approved : List String) (command : String)
    (parts : List BNode) :
    check_command approved command (.ok parts) = ("allow", "") ↔
      checkParsedE approved parts = .ok ("allow", "") := by
  rw [check_command_ok_eq]
  rcases he : checkParsedE approved parts with e | r
  · simp only []
    constructor
    · intro hcontra
      have hE := checkParsedE_error approved parts e he
      subst hE
      rw [handleParseFailure_indexError] at hcontra
      exact absurd hcontra (by decide)
    · intro hcontra
      cases hcontra
  · simp only []
    constructor
    · intro h1
      rw [h1]
    · intro h1
      injection h1

theorem check_command_ok_fst_allow (approved : List String) (command : String)
    (parts : List BNode) :
    (check_command approved command (.ok parts)).1 = "allow" ↔
      check_command approved command (.ok parts) = ("allow", "") := by
  constructor
  · intro h
    rw [check_command_ok_eq] at h ⊢
    rcases he : checkParsedE approved parts with e | r
    · simp only [he] at h
      rw [checkParsedE_error approved parts e he, handleParseFailure_indexError] at h
      simp at h
    · simp only [he] at h ⊢
      rcases checkParsedE_ok_shape approved parts r he with h1 | h1
      · exact h1
      · rw [h1] at h
        simp at h
  · intro h
    rw [h]

theorem check_command_deny_iff (approved : List String) (command : String)
    (parsed : Except String (List BNode)) :
    (check_command approved command parsed).1 = "deny" ↔
      ∃ e, parsed = .error e ∧
        (containsStr e "here-document" && containsStr e "wanted" &&
          heredocQuotedSearch command.data) = true := by
  rcases parsed with e | parts
  · show (handleParseFailure command e).1 = "deny" ↔ _
    unfold handleParseFailure
    rcases hc : (containsStr e "here-document" && containsStr e "wanted" &&
        heredocQuotedSearch command.data) with _ | _
    · simp only [if_neg (by decide : ¬(false = true))]
      constructor
      · intro h
        exact absurd h (by decide)
      · rintro ⟨e1, he1, hcond⟩
        cases he1
        rw [hc] at hcond
        cases hcond
    · simp only [if_pos rfl]
      constructor
      · intro _
        exact ⟨e, rfl, hc⟩
      · intro _
        rfl
  · constructor
    · intro h
      exact absurd h (check_command_ok_not_deny approved command parts)
    · rintro ⟨e, he, _⟩
      cases he

/-! ### Specification-level characterizations of the text rules -/

theorem containsSub_iff (pat l : List Char) : containsSub pat l = true ↔ pat <:+: l := by
  induction l with
  | nil =>
    rw [containsSub]
    simp [List.isEmpty_iff, List.infix_nil]
  | cons c t ih =>
    rw [containsSub]
    simp only [Bool.or_eq_true, List.isPrefixOf_iff_prefix, ih, List.infix_cons_iff]

theorem containsSub_singleton_iff (a : Char) (l : List Char) :
    containsSub [a] l = true ↔ a ∈ l := by
  rw [containsSub_iff]
  constructor
  · rintro ⟨s, t, rfl⟩
    simp
  · intro h
    rcases List.append_of_mem h with ⟨s, t, rfl⟩
    exact ⟨s, t, by simp⟩

/-- The regex `(^|\s)/` in specification terms: the text starts with a slash,
or some whitespace character is immediately followed by a slash. -/
def AbsolutePathMarker (l : List Char) : Prop :=
  (∃ t, l = '/' :: t) ∨ ∃ pre c post, l = pre ++ c :: '/' :: post ∧ isPySpace c = true

theorem absAux_nil : absAux [] = false := rfl

theorem absAux_single (c : Char) : absAux [c] = false := rfl

theorem absAux_cons2 (c d : Char) (t : List Char) :
    absAux (c :: d :: t) = ((isPySpace c && d == '/') || absAux (d :: t)) := rfl

theorem hasAbsPath_nil : hasAbsPath [] = false := rfl

theorem hasAbsPath_cons (c : Char) (t : List Char) :
    hasAbsPath (c :: t) = ((c == '/') || absAux (c :: t)) := rfl

theorem absAux_iff (l : List Char) :
    absAux l = true ↔ ∃ pre c post, l = pre ++ c :: '/' :: post ∧ isPySpace c = true := by
  induction l with
  | nil =>
    rw [absAux_nil]
    constructor
    · intro h
      cases h
    · rintro ⟨pre, c0, post, h, _⟩
      apply congrArg List.length at h
      simp at h
      exact absurd h (by omega)
  | cons c t ih =>
    cases t with
    | nil =>
      rw [absAux_single]
      constructor
      · intro h
        cases h
      · rintro ⟨pre, c0, post, h, _⟩
        apply congrArg List.length at h
        simp at h
        exact absurd h (by omega)
    | cons d t2 =>
      rw [absAux_cons2]
      simp only [Bool.or_eq_true, Bool.and_eq_true, beq_iff_eq, ih]
      constructor
      · rintro (⟨hsp, rfl⟩ | ⟨pre, c0, post, heq, hsp⟩)
        · exact ⟨[], c, t2, rfl, hsp⟩
        · exact ⟨c :: pre, c0, post, by rw [List.cons_append, heq], hsp⟩
      · rintro ⟨pre, c0, post, heq, hsp⟩
        cases pre with
        | nil =>
          injection heq with h1 h2
          injection h2 with h3 h4
          subst h1
          exact Or.inl ⟨hsp, h3⟩
        | cons p pre2 =>
          injection heq with h1 h2
          exact Or.inr ⟨pre2, c0, post, h2, hsp⟩

theorem hasAbsPath_iff (l : List Char) :
    hasAbsPath l = true ↔ AbsolutePathMarker l := by
  cases l with
  | nil =>
    rw [hasAbsPath_nil]
    simp only [AbsolutePathMarker]
    constructor
    · intro h
      cases h
    · rintro (⟨t', ht⟩ | ⟨pre, c0, post, h, _⟩)
      · cases ht
      · apply congrArg List.length at h
        simp at h
        exact absurd h (by omega)
  | cons c t =>
    rw [hasAbsPath_cons]
    simp only [Bool.or_eq_true, beq_iff_eq, absAux_iff, AbsolutePathMarker]
    constructor
    · rintro (rfl | h)
      · exact Or.inl ⟨t, rfl⟩
      · exact Or.inr h
    · rintro (⟨t', ht⟩ | h)
      · injection ht with h1 _
        exact Or.inl h1
      · exact Or.inr h

instance absolutePathMarkerDec (l : List Char) : Decidable (AbsolutePathMarker l) :=
  decidable_of_iff (hasAbsPath l = true) (hasAbsPath_iff l)

/-! ### Claim theorems -/

/-- Claim C1, counterexample: for the input `cat /etc/passwd` (bashlex tree:
one command node with two word parts) and an allowlist with no covering
pattern (here the empty allowlist), the decision is Confirm but its reason is
only the absolute-path violation; contrary to the claim, the reason does not
mention the not-in-approved-list violation, because the failing text-safety
check makes the per-command loop `continue` before the allowlist check. -/
theorem c1_counterexample :
    check_command [] "cat /etc/passwd"
        (.ok [.command [.word "cat" [], .word "/etc/passwd" []]]) =
      ("ask", "\x27cat\x27 uses absolute path") ∧
    containsStr "\x27cat\x27 uses absolute path" "not in approved list" = false := by
  exact ⟨rfl, rfl⟩

/-- Claim C1, amended: for the input `cat /etc/passwd` the decision is
Confirm and the reason is exactly the single absolute-path violation
`'cat' uses absolute path`; the allowlist check is skipped for that command,
so the reason is the same for every allowlist (in particular for any
allowlist with no pattern covering the command). -/
theorem c1_theorem (approved : List String) :
    check_command approved "cat /etc/passwd"
        (.ok [.command [.word "cat" [], .word "/etc/passwd" []]]) =
      ("ask", "\x27cat\x27 uses absolute path") := by
  exact rfl

/-- Claim C2: the code evaluated at the failing input. The bare pattern "ls"
(no colon section, no required-argument words) matches the command name "ls"
with the non-empty argument string "-la": `matches_pattern` returns True,
although its own docstring says a bare pattern matches a command with no
args, and the claim says a non-empty argument string does not match. -/
theorem c2_theorem : matches_pattern "ls" "-la" "ls" = .ok true := by
  exact rfl

/-- Claim C3, counterexample: the command `foo --exec` (text-safe, carrying a
dangerous flag, not in the empty allowlist) contributes two violations — the
dangerous-flag violation does not skip the allowlist check — so, contrary to
the claim, one invoked command yields more than one violation and the
decision reason combines both. -/
theorem c3_counterexample :
    commandCheckViolations [] (mkCommandContext "foo" ["foo", "--exec"]) =
      .ok ["\x27foo\x27 uses dangerous flag \x27--exec\x27 (enables arbitrary code execution)",
        "\x27foo\x27 not in approved list"] ∧
    check_command [] "foo --exec" (.ok [.command [.word "foo" [], .word "--exec" []]]) =
      ("ask", "multiple issues: 1. \x27foo\x27 uses dangerous flag \x27--exec\x27 (enables arbitrary code execution). 2. \x27foo\x27 not in approved list.") := by
  exact ⟨rfl, rfl⟩

/-- Claim C3, amended: a failing text-safety check on a command's full text
records exactly that one violation and skips both the disallowed-flag check
and the allowlist check for that command; a disallowed-flag violation,
however, does not skip the allowlist check, so a text-safe command with a
dangerous flag contributes the flag violation alone when it is allowlisted
and both the flag violation and the not-in-approved-list violation when it
is not. -/
theorem c3_theorem (approved : List String) (c : CommandContext) :
    (∀ v, validate_text_for_dangerous_patterns c.full_command (squote c.name) = some v →
      commandCheckViolations approved c = .ok [v]) ∧
    (validate_text_for_dangerous_patterns c.full_command (squote c.name) = none →
      ∀ arg, (c.parts.drop 1).find? (fun a => DANGEROUS_EXEC_FLAGS.contains a) = some arg →
        (isApproved approved c.name c.args = .ok true →
          commandCheckViolations approved c =
            .ok [squote c.name ++ " uses dangerous flag " ++ squote arg ++
              " (enables arbitrary code execution)"]) ∧
        (isApproved approved c.name c.args = .ok false →
          commandCheckViolations approved c =
            .ok [squote c.name ++ " uses dangerous flag " ++ squote arg ++
                " (enables arbitrary code execution)",
              squote c.name ++ " not in approved list"])) := by
  constructor
  · intro v hv
    unfold commandCheckViolations
    rw [hv]
  · intro htext arg harg
    constructor
    · intro happ
      unfold commandCheckViolations
      rw [htext, harg, happ]
    · intro happ
      unfold commandCheckViolations
      rw [htext, harg, happ]
      rfl

/-- Claim C3, witness: the amended theorem applied to `cat /etc/passwd`
(text-safety failure: one violation), to `foo --exec` against allowlist
["foo:*"] (flag violation only), and to `foo --exec` against the empty
allowlist (flag violation plus not-in-approved-list). -/
theorem c3_witness :
    commandCheckViolations [] (mkCommandContext "cat" ["cat", "/etc/passwd"]) =
      .ok ["\x27cat\x27 uses absolute path"] ∧
    commandCheckViolations ["foo:*"] (mkCommandContext "foo" ["foo", "--exec"]) =
      .ok ["\x27foo\x27 uses dangerous flag \x27--exec\x27 (enables arbitrary code execution)"] ∧
    commandCheckViolations ["zap"] (mkCommandContext "foo" ["foo", "--exec"]) =
      .ok ["\x27foo\x27 uses dangerous flag \x27--exec\x27 (enables arbitrary code execution)",
        "\x27foo\x27 not in approved list"] := by
  refine ⟨?_, ?_, ?_⟩
  · exact (c3_theorem [] (mkCommandContext "cat" ["cat", "/etc/passwd"])).1
      "\x27cat\x27 uses absolute path" rfl
  · exact ((( c3_theorem ["foo:*"] (mkCommandContext "foo" ["foo", "--exec"])).2
      rfl "--exec" rfl).1) rfl
  · exact ((( c3_theorem ["zap"] (mkCommandContext "foo" ["foo", "--exec"])).2
      rfl "--exec" rfl).2) rfl

/-- Claim C4: when the parser raises an error, the decision is deny exactly
when the failure matches the heredoc-with-quoted-delimiter signature (the
error text mentions both "here-document" and "wanted" and the command
contains a `<<` redirect followed by a quoted identifier), with the fixed
guidance reason instructing the caller to use an unquoted delimiter; every
other parse failure is answered "ask" carrying the raw parser error text,
and no input whatsoever makes the engine return "deny" other than a parse
error with that signature. -/
theorem c4_theorem (approved : List String) (command e : String) :
    (check_command approved command (.error e) =
      if containsStr e "here-document" && containsStr e "wanted" &&
          heredocQuotedSearch command.data then
        ("deny", HEREDOC_DENY_MSG)
      else ("ask", "failed to parse compound command: " ++ e)) ∧
    (∀ parsed : Except String (List BNode),
      (check_command approved command parsed).1 = "deny" →
      ∃ e0, parsed = .error e0 ∧
        (containsStr e0 "here-document" && containsStr e0 "wanted" &&
          heredocQuotedSearch command.data) = true) := by
  constructor
  · rfl
  · intro parsed h
    exact (check_command_deny_iff approved command parsed).mp h

/-- Claim C4, witness: a heredoc-signature parse failure for a command
containing `<<'EOF'` is denied with the guidance message; an opaque parse
failure is answered "ask" with the raw error appended; and the deny outcome
certifies the heredoc signature. -/
theorem c4_witness :
    check_command [] "cat <<\x27EOF\x27"
        (.error "here-document at line 0 delimited by end-of-file (wanted \x27EOF\x27)") =
      ("deny", HEREDOC_DENY_MSG) ∧
    check_command [] "ls" (.error "syntax error") =
      ("ask", "failed to parse compound command: syntax error") ∧
    ∃ e0,
      (Except.error "here-document at line 0 delimited by end-of-file (wanted \x27EOF\x27)" :
          Except String (List BNode)) = .error e0 ∧
      (containsStr e0 "here-document" && containsStr e0 "wanted" &&
        heredocQuotedSearch ("cat <<\x27EOF\x27").data) = true := by
  refine ⟨?_, ?_, ?_⟩
  · rw [(c4_theorem [] "cat <<\x27EOF\x27"
      "here-document at line 0 delimited by end-of-file (wanted \x27EOF\x27)").1]
    rfl
  · rw [(c4_theorem [] "ls" "syntax error").1]
    rfl
  · exact (c4_theorem [] "cat <<\x27EOF\x27" "unused").2
      (.error "here-document at line 0 delimited by end-of-file (wanted \x27EOF\x27)") rfl

/-- Claim C5: after a successful parse the hazard flags are tested in fixed
priority order — background first (its reason wins regardless of the other
flags or of any violation), then variable expansion, then process
substitution — and only when all three flags are clear is the decision
computed from the per-command violations. -/
theorem c5_theorem (approved : List String) (command : String) (parts : List BNode) :
    ((visitSeq initState parts).has_background = true →
      check_command approved command (.ok parts) = ("ask", BG_MSG)) ∧
    ((visitSeq initState parts).has_background = false →
      (visitSeq initState parts).has_var_expansion = true →
      check_command approved command (.ok parts) = ("ask", VAR_MSG)) ∧
    ((visitSeq initState parts).has_background = false →
      (visitSeq initState parts).has_var_expansion = false →
      (visitSeq initState parts).has_process_sub = true →
      check_command approved command (.ok parts) = ("ask", PS_MSG)) ∧
    ((visitSeq initState parts).has_background = false →
      (visitSeq initState parts).has_var_expansion = false →
      (visitSeq initState parts).has_process_sub = false →
      check_command approved command (.ok parts) =
        match accumViolations approved (visitSeq initState parts).commands
            (visitSeq initState parts).violations with
        | .error e => handleParseFailure command e
        | .ok vs => formatViolations vs) := by
  refine ⟨?_, ?_, ?_, ?_⟩
  · intro hb
    rw [check_command_ok_eq]
    unfold checkParsedE
    simp [hb]
  · intro hb hv
    rw [check_command_ok_eq]
    unfold checkParsedE
    simp [hb, hv]
  · intro hb hv hp
    rw [check_command_ok_eq]
    unfold checkParsedE
    simp [hb, hv, hp]
  · intro hb hv hp
    rw [check_command_ok_eq]
    unfold checkParsedE
    simp only [hb, hv, hp]
    rcases ha : accumViolations approved (visitSeq initState parts).commands
        (visitSeq initState parts).violations with e | vs
    · simp [ha]
    · simp [ha]

/-- Claim C5, witness: the priority theorem applied to a lone background
operator, a lone parameter expansion, a lone process substitution, and a
tree carrying both the background and expansion hazards (background wins). -/
theorem c5_witness :
    check_command [] "w" (.ok [.operator "&"]) = ("ask", BG_MSG) ∧
    check_command [] "w" (.ok [.parameter "HOME"]) = ("ask", VAR_MSG) ∧
    check_command [] "w" (.ok [.processsubstitution (.command [.word "ls" []])]) =
      ("ask", PS_MSG) ∧
    check_command [] "w" (.ok [.operator "&", .parameter "HOME"]) = ("ask", BG_MSG) := by
  refine ⟨?_, ?_, ?_, ?_⟩
  · exact (c5_theorem [] "w" [.operator "&"]).1 rfl
  · exact (c5_theorem [] "w" [.parameter "HOME"]).2.1 rfl rfl
  · exact (c5_theorem [] "w" [.processsubstitution (.command [.word "ls" []])]).2.2.1
      rfl rfl rfl
  · exact (c5_theorem [] "w" [.operator "&", .parameter "HOME"]).1 rfl

/-- Claim C6: the text safety validator applies exactly four rules in fixed
order with short-circuit — a slash at the start of the text or right after
whitespace, then the substring "..", then "~", then the substring ".git" —
returning the first matching rule's violation and none exactly when all four
checks pass. -/
theorem c6_theorem (text context_name : String) :
    validate_text_for_dangerous_patterns text context_name =
      if AbsolutePathMarker text.data then some (context_name ++ " uses absolute path")
      else if ("..").data <:+: text.data then
        some (context_name ++ " accesses parent directory")
      else if '~' ∈ text.data then some (context_name ++ " uses tilde expansion")
      else if (".git").data <:+: text.data then
        some (context_name ++ " accesses .git files")
      else none := by
  unfold validate_text_for_dangerous_patterns containsStr
  have e1 := hasAbsPath_iff text.data
  have e2 := containsSub_iff ("..").data text.data
  have e3 : containsSub ("~").data text.data = true ↔ '~' ∈ text.data :=
    containsSub_singleton_iff '~' text.data
  have e4 := containsSub_iff (".git").data text.data
  by_cases h1 : AbsolutePathMarker text.data
  · rw [if_pos h1, if_pos (e1.mpr h1)]
  · rw [if_neg h1, if_neg (fun hb => h1 (e1.mp hb))]
    by_cases h2 : ("..").data <:+: text.data
    · rw [if_pos h2, if_pos (e2.mpr h2)]
    · rw [if_neg h2, if_neg (fun hb => h2 (e2.mp hb))]
      by_cases h3 : '~' ∈ text.data
      · rw [if_pos h3, if_pos (e3.mpr h3)]
      · rw [if_neg h3, if_neg (fun hb => h3 (e3.mp hb))]
        by_cases h4 : (".git").data <:+: text.data
        · rw [if_pos h4, if_pos (e4.mpr h4)]
        · rw [if_neg h4, if_neg (fun hb => h4 (e4.mp hb))]

/-- Claim C7: pattern matching is prefix-exact for non-wildcard patterns
with required argument words — "git status" matches ("git", "status") but
not ("git", "status --short") — while the wildcard pattern "git status:*"
matches both. -/
theorem c7_theorem :
    matches_pattern "git" "status" "git status" = .ok true ∧
    matches_pattern "git" "status --short" "git status" = .ok false ∧
    matches_pattern "git" "status" "git status:*" = .ok true ∧
    matches_pattern "git" "status --short" "git status:*" = .ok true := by
  exact ⟨rfl, rfl, rfl, rfl⟩

theorem check_command_ok_fst_cases (approved : List String) (command : String)
    (parts : List BNode) :
    (check_command approved command (.ok parts)).1 = "allow" ∨
    (check_command approved command (.ok parts)).1 = "ask" := by
  rw [check_command_ok_eq]
  rcases h : checkParsedE approved parts with e | r
  · simp only []
    rw [checkParsedE_error approved parts e h, handleParseFailure_indexError]
    right
    rfl
  · simp only []
    rcases checkParsedE_ok_shape approved parts r h with h1 | h1
    · rw [h1]
      left
      rfl
    · right
      exact h1

theorem accum_merge_empty_iff (approved : List String) (c1 c2 : List CommandContext)
    (w1 w2 : List String) :
    accumViolations approved (c1 ++ c2) (w1 ++ w2) = .ok [] ↔
      (accumViolations approved c1 w1 = .ok [] ∧
       accumViolations approved c2 w2 = .ok []) := by
  rw [accumViolations_append, accumViolations_acc approved c1 (w1 ++ w2),
    accumViolations_acc approved c1 w1, accumViolations_acc approved c2 w2]
  rcases h1 : accumViolations approved c1 [] with e1 | a1
  · simp
  · simp only []
    rw [accumViolations_acc approved c2 (w1 ++ w2 ++ a1)]
    rcases h2 : accumViolations approved c2 [] with e2 | a2
    · simp
    · simp only [Except.ok.injEq, List.append_eq_nil]
      tauto

/-- Compound trees whose visitor state merges the states of two subtrees are
Permit exactly when both subtrees are individually Permit. -/
theorem allow_merge_helper (approved : List String) (sc s1 s2 : String)
    (n1 n2 : BNode) (parts : List BNode)
    (hm : visitSeq initState parts =
      mergeS (visit initState n1) (visit initState n2)) :
    check_command approved sc (.ok parts) = ("allow", "") ↔
      (check_command approved s1 (.ok [n1]) = ("allow", "") ∧
       check_command approved s2 (.ok [n2]) = ("allow", "")) := by
  rw [check_command_ok_allow_iff approved sc, checkParsedE_allow_iff, hm,
    check_command_ok_allow_iff approved s1, checkParsedE_allow_iff,
    show visitSeq initState [n1] = visit initState n1 from rfl,
    check_command_ok_allow_iff approved s2, checkParsedE_allow_iff,
    show visitSeq initState [n2] = visit initState n2 from rfl]
  simp only [mergeS]
  rw [accum_merge_empty_iff]
  simp only [Bool.or_eq_false_iff]
  tauto

/-- Claim C8: chaining two subtrees with "&&", "||" or ";" (a list node with
an operator node between them), or piping them (a pipeline node with a pipe
node between them), yields Permit exactly when each subtree alone is Permit;
when at least one is not, the compound decision is Confirm ("ask"); and none
of these chaining operators sets the background flag. -/
theorem c8_theorem (approved : List String) (s1 s2 sc : String) (n1 n2 : BNode)
    (op : String) (hop : op = "&&" ∨ op = "||" ∨ op = ";") :
    (visit initState (.operator op)).has_background = false ∧
    ((check_command approved s1 (.ok [n1]) = ("allow", "") ∧
      check_command approved s2 (.ok [n2]) = ("allow", "")) →
      (check_command approved sc (.ok [.list [n1, .operator op, n2]]) = ("allow", "") ∧
       check_command approved sc (.ok [.pipeline [n1, .pipe "|", n2]]) = ("allow", ""))) ∧
    (¬(check_command approved s1 (.ok [n1]) = ("allow", "") ∧
       check_command approved s2 (.ok [n2]) = ("allow", "")) →
      ((check_command approved sc (.ok [.list [n1, .operator op, n2]])).1 = "ask" ∧
       (check_command approved sc (.ok [.pipeline [n1, .pipe "|", n2]])).1 = "ask")) := by
  have hop' : op ≠ "&" := by
    rcases hop with rfl | rfl | rfl <;> decide
  have hvop : ∀ s : VState, visit s (.operator op) = s := by
    intro s
    rw [visit.eq_def]
    simp [hop']
  have hm_list : visitSeq initState [.list [n1, .operator op, n2]] =
      mergeS (visit initState n1) (visit initState n2) := by
    show visit (visit (visit initState n1) (.operator op)) n2 = _
    rw [hvop (visit initState n1), visit_mergeS (visit initState n1) n2]
  have hm_pipe : visitSeq initState [.pipeline [n1, .pipe "|", n2]] =
      mergeS (visit initState n1) (visit initState n2) := by
    show visit (visit (visit initState n1) (.pipe "|")) n2 = _
    rw [show visit (visit initState n1) (.pipe "|") = visit initState n1 from rfl,
      visit_mergeS (visit initState n1) n2]
  refine ⟨?_, ?_, ?_⟩
  · rw [hvop initState]
    rfl
  · intro hpair
    exact ⟨(allow_merge_helper approved sc s1 s2 n1 n2 _ hm_list).mpr hpair,
      (allow_merge_helper approved sc s1 s2 n1 n2 _ hm_pipe).mpr hpair⟩
  · intro hnot
    constructor
    · rcases check_command_ok_fst_cases approved sc [.list [n1, .operator op, n2]]
        with hA | hA
      · exact absurd ((allow_merge_helper approved sc s1 s2 n1 n2 _ hm_list).mp
          ((check_command_ok_fst_allow approved sc _).mp hA)) hnot
      · exact hA
    · rcases check_command_ok_fst_cases approved sc [.pipeline [n1, .pipe "|", n2]]
        with hA | hA
      · exact absurd ((allow_merge_helper approved sc s1 s2 n1 n2 _ hm_pipe).mp
          ((check_command_ok_fst_allow approved sc _).mp hA)) hnot
      · exact hA

/-- Claim C8, witness: with allowlist ["ls", "pwd"], chaining the approved
commands `ls` and `pwd` with ";" or "|" is Permit, and chaining `ls` with the
unapproved `rm` is Confirm. -/
theorem c8_witness :
    check_command ["ls", "pwd"] "c"
        (.ok [.list [.command [.word "ls" []], .operator ";",
          .command [.word "pwd" []]]]) = ("allow", "") ∧
    check_command ["ls", "pwd"] "c"
        (.ok [.pipeline [.command [.word "ls" []], .pipe "|",
          .command [.word "pwd" []]]]) = ("allow", "") ∧
    (check_command ["ls", "pwd"] "c"
        (.ok [.list [.command [.word "ls" []], .operator ";",
          .command [.word "rm" []]]])).1 = "ask" := by
  have h1 := ( c8_theorem ["ls", "pwd"] "a" "b" "c" (.command [.word "ls" []])
    (.command [.word "pwd" []]) ";" (Or.inr (Or.inr rfl))).2.1 ⟨rfl, rfl⟩
  have h2 := ( c8_theorem ["ls", "pwd"] "a" "b" "c" (.command [.word "ls" []])
    (.command [.word "rm" []]) ";" (Or.inr (Or.inr rfl))).2.2
    (fun hc => absurd hc.2 (by decide))
  exact ⟨h1.1, h1.2, h2.1⟩

/-- Claim C9: the decision engine is deterministic — it is a pure function
of the allowlist, the command text and the parser outcome, so two
evaluations on the same input yield the identical decision variant and the
identical reason text. -/
theorem c9_theorem (approved : List String) (command : String)
    (parsed : Except String (List BNode)) :
    (validate_command approved command parsed).1 =
      (validate_command approved command parsed).1 ∧
    (validate_command approved command parsed).2 =
      (validate_command approved command parsed).2 := by
  exact ⟨rfl, rfl⟩

/-- Claim C10: a command containing a null byte is answered "ask" with
reason "contains null byte" irrespective of the parser outcome (the check
runs before parsing), so such a command is never Permitted and never
Rejected. -/
theorem c10_theorem (approved : List String) (command : String)
    (parsed : Except String (List BNode))
    (h : containsStr command "\x00" = true) :
    validate_command approved command parsed = ("ask", "contains null byte") ∧
    (validate_command approved command parsed).1 ≠ "allow" ∧
    (validate_command approved command parsed).1 ≠ "deny" := by
  unfold validate_command
  rw [if_pos h]
  refine ⟨rfl, ?_, ?_⟩ <;> decide

/-- Claim C10, witness: the null-byte rule applied to `ls\x00rm -rf ./`
with an arbitrary parse outcome. -/
theorem c10_witness :
    validate_command [] "ls\x00rm -rf ./" (.ok [.command [.word "ls" []]]) =
      ("ask", "contains null byte") ∧
    containsStr "ls\x00rm -rf ./" "\x00" = true := by
  exact ⟨(c10_theorem [] "ls\x00rm -rf ./" (.ok [.command [.word "ls" []]]) rfl).1, rfl⟩

end ValidateBash
